import Mathlib

set_option maxRecDepth 100000

/-!
Verification of the chunking core of `rag_public_reports` (`src/rag_public_reports/ingest.py`).

The Python module is shallowly embedded below:
* Python strings are Lean `String`s (code-point sequences, like Python `str`);
* the `re` patterns of the heading registry are embedded as first-order regular
  expressions matched with Brzozowski derivatives (`re.Pattern.match` is prefix
  matching anchored at position 0; the one pattern ending in `$` is matched
  against the whole line — the lines fed to the patterns never contain `"\n"`,
  so `re.MULTILINE` makes no further difference);
* chunk metadata (Python dicts with insertion order) are association lists with
  dict-update / setdefault / lookup operations;
* the langchain `RecursiveCharacterTextSplitter`, which is not part of this
  repository's sources, is modelled from the spec (see `recursive_splitter_model`).
-/

namespace RagSpec

/-! ### Character classes (the bracket expressions of the source patterns) -/

/-- First-order character classes, so that pattern values have decidable equality. -/
inductive CC where
  | chars (cs : List Char)
  | range (lo hi : Char)
  | union (a b : CC)
  | dotNN
deriving DecidableEq, Repr

def ccMatch : CC → Char → Bool
  | .chars cs, c => cs.contains c
  | .range lo hi, c => decide (lo ≤ c) && decide (c ≤ hi)
  | .union a b, c => ccMatch a c || ccMatch b c
  | .dotNN, c => c != '\n'

/-- The characters of Python's `\s` class / `str.strip()` whitespace
(ASCII whitespace plus the Unicode whitespace code points). -/
def ccSpace : CC := .chars
  [' ', '\t', '\n', '\r', '\x0b', '\x0c',
   '\x1c', '\x1d', '\x1e', '\x1f', '\u0085', '\u00A0', '\u1680',
   '\u2000', '\u2001', '\u2002', '\u2003', '\u2004', '\u2005', '\u2006',
   '\u2007', '\u2008', '\u2009', '\u200A', '\u2028', '\u2029', '\u202F',
   '\u205F', '\u3000']

def isPySpace (c : Char) : Bool := ccMatch ccSpace c

/-- `[A-Z]` -/
def ccUpperAZ : CC := .range 'A' 'Z'

/-- `[A-ZÀÂÉÈÊËÎÏÔÙÛÜ]` -/
def ccUpperFr : CC := .union ccUpperAZ (.chars ['À', 'Â', 'É', 'È', 'Ê', 'Ë', 'Î', 'Ï', 'Ô', 'Ù', 'Û', 'Ü'])

/-- `[a-zàâéèêëîïôùûü]` -/
def ccLowerFr : CC := .union (.range 'a' 'z') (.chars ['à', 'â', 'é', 'è', 'ê', 'ë', 'î', 'ï', 'ô', 'ù', 'û', 'ü'])

/-- `\d` -/
def ccDigit : CC := .range '0' '9'

/-- `[IVXLC]` -/
def ccRomanWide : CC := .chars ['I', 'V', 'X', 'L', 'C']

/-- `[IVX]` -/
def ccRomanNarrow : CC := .chars ['I', 'V', 'X']

/-- `[\-–]` -/
def ccDash : CC := .chars ['-', '–']

/-- `[\-–\.]` -/
def ccDashDot : CC := .chars ['-', '–', '.']

/-- `[\.\s]` -/
def ccDotSpace : CC := .union (.chars ['.']) ccSpace

/-- `[\s\-–:]` -/
def ccSepar : CC := .union ccSpace (.chars ['-', '–', ':'])

/-- `[A-ZÀÂÉÈÊËÎÏÔÙÛÜ\s\-–:]` (the tail class of the all-caps heading rule) -/
def ccCapsTail : CC := .union ccUpperFr ccSepar

/-! ### Regular expressions and Brzozowski-derivative matching -/

inductive RE where
  | eps
  | nul
  | cls (c : CC)
  | cat (a b : RE)
  | alt (a b : RE)
  | star (a : RE)
  | rep (a : RE) (lo : Nat) (hi : Option Nat)
deriving DecidableEq, Repr

def nullable : RE → Bool
  | .eps => true
  | .nul => false
  | .cls _ => false
  | .cat a b => nullable a && nullable b
  | .alt a b => nullable a || nullable b
  | .star _ => true
  | .rep a lo _ => lo == 0 || nullable a

/-- Smart concatenation (keeps derivative terms small). -/
def scat : RE → RE → RE
  | .nul, _ => .nul
  | _, .nul => .nul
  | .eps, b => b
  | a, .eps => a
  | a, b => .cat a b

/-- Smart alternation (keeps derivative terms small). -/
def salt : RE → RE → RE
  | .nul, b => b
  | a, .nul => a
  | a, b => .alt a b

def deriv : RE → Char → RE
  | .eps, _ => .nul
  | .nul, _ => .nul
  | .cls cc, c => if ccMatch cc c then .eps else .nul
  | .cat a b, c => if nullable a then salt (scat (deriv a c) b) (deriv b c) else scat (deriv a c) b
  | .alt a b, c => salt (deriv a c) (deriv b c)
  | .star a, c => scat (deriv a c) (.star a)
  | .rep a lo hi, c =>
    match hi with
    | some 0 => .nul
    | _ => scat (deriv a c) (.rep a (lo - 1) (hi.map (· - 1)))

/-- `re.Pattern.match` semantics: does some prefix of the input match? -/
def matchPre (r : RE) : List Char → Bool
  | [] => nullable r
  | c :: cs => nullable r || matchPre (deriv r c) cs

/-- Whole-input matching (for the patterns that end in `$`). -/
def matchAll (r : RE) : List Char → Bool
  | [] => nullable r
  | c :: cs => matchAll (deriv r c) cs

/-- A compiled source pattern: a regex plus whether the source pattern ends in `$`.
All source patterns start with `^`, which under `re.match` is position 0. -/
structure Pat where
  re : RE
  anchorEnd : Bool
deriving DecidableEq, Repr

def patMatch (p : Pat) (line : String) : Bool :=
  if p.anchorEnd then matchAll p.re line.data else matchPre p.re line.data

/-! regex-building helpers -/

def rchar (c : Char) : RE := .cls (.chars [c])

def rlit (s : String) : RE := s.data.foldr (fun c r => RE.cat (rchar c) r) RE.eps

def rcat (rs : List RE) : RE := rs.foldr RE.cat RE.eps

/-- `r+` -/
def plus (r : RE) : RE := .rep r 1 none

/-- `r{n,}` -/
def atLeast (n : Nat) (r : RE) : RE := .rep r n none

/-- `r{lo,hi}` -/
def between (lo hi : Nat) (r : RE) : RE := .rep r lo (some hi)

/-- `r?` -/
def opt (r : RE) : RE := .rep r 0 (some 1)

/-! ### Python string primitives used by `ingest.py` -/

/-- Python `str.strip()` (no argument): remove leading and trailing whitespace. -/
def pyStrip (s : String) : String :=
  String.mk (((s.data.dropWhile isPySpace).reverse.dropWhile isPySpace).reverse)

def collapseWsAux : Bool → List Char → List Char
  | _, [] => []
  | prevSp, c :: cs =>
    if isPySpace c then
      if prevSp then collapseWsAux true cs else ' ' :: collapseWsAux true cs
    else c :: collapseWsAux false cs

/-- `re.sub(r"\s+", " ", s)`: every maximal whitespace run becomes one space. -/
def collapseWs (s : String) : String := String.mk (collapseWsAux false s.data)

def splitNlAux : List Char → List Char → List String
  | [], cur => [String.mk cur.reverse]
  | c :: cs, cur =>
    if c = '\n' then String.mk cur.reverse :: splitNlAux cs [] else splitNlAux cs (c :: cur)

/-- Python `s.split("\n")` (so `"".split("\n") == [""]`). -/
def splitNl (s : String) : List String := splitNlAux s.data []

/-- Python `str.lower()`, for the repertoire appearing in this module's data
(ASCII letters and the uppercase accented letters of the patterns); other
characters are unchanged. -/
def pyLower (c : Char) : Char :=
  if 'A' ≤ c ∧ c ≤ 'Z' then Char.ofNat (c.toNat + 32)
  else match c with
    | 'À' => 'à' | 'Â' => 'â' | 'É' => 'é' | 'È' => 'è' | 'Ê' => 'ê' | 'Ë' => 'ë'
    | 'Î' => 'î' | 'Ï' => 'ï' | 'Ô' => 'ô' | 'Ù' => 'ù' | 'Û' => 'û' | 'Ü' => 'ü'
    | 'Ç' => 'ç'
    | c => c

def pyLowerStr (s : String) : String := String.mk (s.data.map pyLower)

/-- `unicodedata.normalize("NFD", ·)` on one (already lowercased) character,
for the French Latin-1 repertoire this module processes: an accented letter
decomposes into its base letter followed by a combining mark; anything else is
its own decomposition. -/
def nfdChar : Char → List Char
  | 'à' => ['a', '\u0300'] | 'â' => ['a', '\u0302']
  | 'é' => ['e', '\u0301'] | 'è' => ['e', '\u0300'] | 'ê' => ['e', '\u0302'] | 'ë' => ['e', '\u0308']
  | 'î' => ['i', '\u0302'] | 'ï' => ['i', '\u0308']
  | 'ô' => ['o', '\u0302']
  | 'ù' => ['u', '\u0300'] | 'û' => ['u', '\u0302'] | 'ü' => ['u', '\u0308']
  | 'ç' => ['c', '\u0327']
  | c => [c]

/-- `unicodedata.category(c) == "Mn"` for the decompositions produced by
`nfdChar`: the combining diacritical marks block. -/
def isCombiningMark (c : Char) : Bool := decide (0x300 ≤ c.toNat) && decide (c.toNat ≤ 0x36F)

/-- Python `s[:120]`. -/
def take120 (s : String) : String := String.mk (s.data.take 120)

/-! ### Metadata dictionaries (Python dicts, insertion-ordered) -/

/-- A metadata value: the chunks of this module only store strings and ints. -/
inductive MVal where
  | str (s : String)
  | int (n : Int)
deriving DecidableEq, Repr

/-- `d[k]` lookup (as an `Option`). -/
def mdGet (md : List (String × MVal)) (k : String) : Option MVal :=
  (md.find? (fun p => p.1 == k)).map (fun p => p.2)

/-- `d[k] = v`: overwrite in place when the key exists, else append. -/
def mdSet (md : List (String × MVal)) (k : String) (v : MVal) : List (String × MVal) :=
  if md.any (fun p => p.1 == k) then
    md.map (fun p => if p.1 == k then (k, v) else p)
  else md ++ [(k, v)]

/-- `d.setdefault(k, v)`. -/
def mdSetdefault (md : List (String × MVal)) (k : String) (v : MVal) : List (String × MVal) :=
  if md.any (fun p => p.1 == k) then md else md ++ [(k, v)]

/-- `d.update({...})` / `{**d, ...}`. -/
def mdUpdate (md : List (String × MVal)) (kvs : List (String × MVal)) : List (String × MVal) :=
  kvs.foldl (fun m kv => mdSet m kv.1 kv.2) md

/-- A langchain `Document`: text plus metadata. -/
structure Document where
  page_content : String
  metadata : List (String × MVal)
deriving DecidableEq, Repr

/-! ### Chunking configuration (`config.py`) -/

def CHUNK_SIZE : Nat := 2000

def CHUNK_OVERLAP : Nat := 400

/-! ### The heading pattern registry (`_PATTERNS_*` of `ingest.py`) -/

/-- `(CHAPITRE|PARTIE|TITRE|SECTION)` -/
def reChapWords : RE :=
  .alt (rlit "CHAPITRE") (.alt (rlit "PARTIE") (.alt (rlit "TITRE") (rlit "SECTION")))

/-- `^(CHAPITRE|PARTIE|TITRE|SECTION)\s+[IVXLC]+\s+.{3,}` -/
def cdcPat1 : Pat :=
  ⟨rcat [reChapWords, plus (.cls ccSpace), plus (.cls ccRomanWide),
         plus (.cls ccSpace), atLeast 3 (.cls .dotNN)], false⟩

/-- `^[IVX]{1,4}\s*[\-–]\s+[A-ZÀÂÉÈÊËÎÏÔÙÛÜ]{2,}.{5,}` -/
def cdcPat2 : Pat :=
  ⟨rcat [between 1 4 (.cls ccRomanNarrow), .star (.cls ccSpace), .cls ccDash,
         plus (.cls ccSpace), atLeast 2 (.cls ccUpperFr), atLeast 5 (.cls .dotNN)], false⟩

/-- `^[A-Z]\s*[\-–]\s+[A-ZÀÂÉÈÊËÎÏÔÙÛÜ][a-zàâéèêëîïôùûü].{5,}` -/
def cdcPat3 : Pat :=
  ⟨rcat [.cls ccUpperAZ, .star (.cls ccSpace), .cls ccDash, plus (.cls ccSpace),
         .cls ccUpperFr, .cls ccLowerFr, atLeast 5 (.cls .dotNN)], false⟩

/-- `^[A-ZÀÂÉÈÊËÎÏÔÙÛÜ][A-ZÀÂÉÈÊËÎÏÔÙÛÜ\s\-–:]{3,79}$` (shared by all three rule sets) -/
def allCapsPat : Pat :=
  ⟨rcat [.cls ccUpperFr, between 3 79 (.cls ccCapsTail)], true⟩

def PATTERNS_COUR_DES_COMPTES : List Pat := [cdcPat1, cdcPat2, cdcPat3, allCapsPat]

/-- `^\d+\.\s{2,}[A-ZÀÂÉÈÊËÎÏÔÙÛÜ]{2}.{5,}` -/
def igfPat1 : Pat :=
  ⟨rcat [plus (.cls ccDigit), rchar '.', atLeast 2 (.cls ccSpace),
         between 2 2 (.cls ccUpperFr), atLeast 5 (.cls .dotNN)], false⟩

/-- `^\d+\.\d+\.\s+[A-ZÀÂÉÈÊËÎÏÔÙÛÜ][a-zàâéèêëîïôùûü].{5,}` -/
def igfPat2 : Pat :=
  ⟨rcat [plus (.cls ccDigit), rchar '.', plus (.cls ccDigit), rchar '.',
         plus (.cls ccSpace), .cls ccUpperFr, .cls ccLowerFr, atLeast 5 (.cls .dotNN)], false⟩

/-- `^\d+\.\d+\.\d+\.\s+[A-ZÀÂÉÈÊËÎÏÔÙÛÜ][a-zàâéèêëîïôùûü].{5,}` -/
def igfPat3 : Pat :=
  ⟨rcat [plus (.cls ccDigit), rchar '.', plus (.cls ccDigit), rchar '.',
         plus (.cls ccDigit), rchar '.',
         plus (.cls ccSpace), .cls ccUpperFr, .cls ccLowerFr, atLeast 5 (.cls .dotNN)], false⟩

def PATTERNS_IGF : List Pat := [igfPat1, igfPat2, igfPat3, allCapsPat]

/-- `^(CHAPITRE|PARTIE|TITRE|SECTION)\s+[0-9IVXLC]+[\s\-–:]+.{3,}` -/
def genPat1 : Pat :=
  ⟨rcat [reChapWords, plus (.cls ccSpace), plus (.cls (.union ccDigit ccRomanWide)),
         plus (.cls ccSepar), atLeast 3 (.cls .dotNN)], false⟩

/-- `^[IVX]{1,4}[\.\s]*[\-–\.]\s+[A-ZÀÂÉÈÊËÎÏÔÙÛÜ].{3,}` -/
def genPat2 : Pat :=
  ⟨rcat [between 1 4 (.cls ccRomanNarrow), .star (.cls ccDotSpace), .cls ccDashDot,
         plus (.cls ccSpace), .cls ccUpperFr, atLeast 3 (.cls .dotNN)], false⟩

/-- `^[A-Z][\.\s]*[\-–\.]\s+[A-ZÀÂÉÈÊËÎÏÔÙÛÜ].{3,}` -/
def genPat3 : Pat :=
  ⟨rcat [.cls ccUpperAZ, .star (.cls ccDotSpace), .cls ccDashDot,
         plus (.cls ccSpace), .cls ccUpperFr, atLeast 3 (.cls .dotNN)], false⟩

/-- `^\d+(\.\d+)*\.?\s+[A-ZÀÂÉÈÊËÎÏÔÙÛÜ].{3,}` -/
def genPat4 : Pat :=
  ⟨rcat [plus (.cls ccDigit), .star (.cat (rchar '.') (plus (.cls ccDigit))), opt (rchar '.'),
         plus (.cls ccSpace), .cls ccUpperFr, atLeast 3 (.cls .dotNN)], false⟩

def PATTERNS_GENERIQUES : List Pat := [genPat1, genPat2, genPat3, genPat4, allCapsPat]

/-- `_PATTERNS_BY_INSTITUTION`: lowercase keys, insertion-ordered. -/
def PATTERNS_BY_INSTITUTION : List (String × List Pat) :=
  [("cour des comptes", PATTERNS_COUR_DES_COMPTES),
   ("igf", PATTERNS_IGF),
   ("cge", PATTERNS_GENERIQUES),
   ("igas", PATTERNS_GENERIQUES),
   ("iga", PATTERNS_GENERIQUES)]

/-! ### Protected sections -/

def PROTECTED_SECTIONS : List String :=
  ["recommandation", "conclusion", "synthese", "recapitulatif"]

/-- needle-first prefix test on character lists. -/
def startsWithCh : List Char → List Char → Bool
  | [], _ => true
  | _ :: _, [] => false
  | n :: ns, h :: hs => n == h && startsWithCh ns hs

def containsSubAux (needle : List Char) : List Char → Bool
  | [] => startsWithCh needle []
  | h :: hs => startsWithCh needle (h :: hs) || containsSubAux needle hs

/-- Python `needle in hay` for strings. -/
def containsSub (hay needle : String) : Bool := containsSubAux needle.data hay.data

/-- The inner `normalize` of `_is_protected_section`: lowercase, decompose
(NFD) and drop combining marks. -/
def normalizeAccents (s : String) : String :=
  String.mk ((((s.data.map pyLower).map nfdChar).flatten).filter (fun c => !(isCombiningMark c)))

/-- `_is_protected_section`. -/
def is_protected_section (title : String) : Bool :=
  if title == "" then false
  else PROTECTED_SECTIONS.any (fun keyword => containsSub (normalizeAccents title) keyword)

/-! ### Pattern resolution and section detection -/

/-- `_get_patterns`: normalize the institution name, look it up, fall back to
the generic rule set (pattern compilation is the identity on this embedding's
already-structured patterns). -/
def get_patterns (institution : String) : List Pat :=
  let key := pyLowerStr (pyStrip institution)
  match PATTERNS_BY_INSTITUTION.find? (fun p => p.1 == key) with
  | some p => p.2
  | none => PATTERNS_GENERIQUES

/-- `_detect_section_title`: first non-empty stripped line on which some
pattern fires, truncated to 120 characters. -/
def detect_section_title (text : String) (compiled_patterns : List Pat) : Option String :=
  let lines := ((splitNl text).map pyStrip).filter (fun l => l != "")
  lines.findSome? (fun line =>
    if compiled_patterns.any (fun pattern => patMatch pattern line) then some (take120 line)
    else none)

/-! ### The fixed-window sub-splitter (external collaborator) -/

/-- Modelled from the spec: the Fixed-Window Fallback Segmenter (spec 4.5) is
langchain's `RecursiveCharacterTextSplitter`, whose code is not part of this
repository's sources. The model emits windows of at most `CHUNK_SIZE`
characters whose consecutive starts differ by `CHUNK_SIZE - CHUNK_OVERLAP`
(so consecutive windows overlap by `CHUNK_OVERLAP` characters), copies the
parent document's metadata onto every sub-chunk and records the sub-chunk's
start offset under `"start_index"` (`add_start_index=True`). The
separator-preferring placement of window boundaries is abstracted to raw
character windows; no theorem below depends on where the windows fall, only
on the window structure and the metadata inheritance. -/
def recursive_splitter_model (d : Document) : List Document :=
  let cs := d.page_content.data
  let n := cs.length
  let step := CHUNK_SIZE - CHUNK_OVERLAP
  let starts : List Nat :=
    if n ≤ CHUNK_SIZE then [0]
    else (List.range (1 + (n - CHUNK_SIZE + step - 1) / step)).map (· * step)
  starts.map (fun s =>
    { page_content := String.mk ((cs.drop s).take CHUNK_SIZE),
      metadata := mdSet d.metadata "start_index" (.int s) })

/-! ### Section-based segmentation (`_chunk_by_sections`) -/

/-- The candidate chunk built inside `_flush_section`:
`Document(page_content=text, metadata={**doc.metadata, "section": title or "", "section_index": idx})`. -/
def mkSectionChunk (docMeta : List (String × MVal)) (text : String)
    (title : Option String) (idx : Int) : Document :=
  { page_content := text,
    metadata := mdUpdate docMeta
      [("section", .str (title.getD "")), ("section_index", .int idx)] }

/-- The metadata inheritance applied to every sub-chunk inside `_flush_section`:
`sc.metadata.setdefault("section", title or ""); sc.metadata.setdefault("section_index", idx)`. -/
def inheritSectionMeta (title : Option String) (idx : Int) (sc : Document) : Document :=
  { sc with metadata :=
      (mdSetdefault (mdSetdefault sc.metadata "section" (.str (title.getD "")))
        "section_index" (.int idx)) }

/-- `_flush_section`, returning the chunks it appends to `sections`.
The sub-splitter is a parameter so that properties can be stated for any
fixed-window collaborator; the pipeline instantiates it with
`recursive_splitter_model`. -/
def flush_section (splitter : Document → List Document) (docMeta : List (String × MVal))
    (text : String) (title : Option String) (idx : Int) : List Document :=
  let text := pyStrip text
  if text == "" then []
  else
    let chunk := mkSectionChunk docMeta text title idx
    if CHUNK_SIZE * 2 < text.length then
      (splitter chunk).map (inheritSectionMeta title idx)
    else [chunk]

/-- Python truthiness of `detected` (an `Optional[str]`). -/
def optTruthy : Option String → Bool
  | none => false
  | some s => s != ""

/-- The loop state of `_chunk_by_sections`. -/
structure SegState where
  sections : List Document
  current_text : String
  current_title : Option String
  section_index : Int
deriving DecidableEq, Repr

/-- One iteration of the `for line in lines:` loop of `_chunk_by_sections`. -/
def seg_step (pats : List Pat) (splitter : Document → List Document)
    (docMeta : List (String × MVal)) (st : SegState) (line : String) : SegState :=
  let line_stripped := pyStrip (collapseWs line)
  let detected := detect_section_title line_stripped pats
  if optTruthy detected && (st.current_text != "") then
    { sections := st.sections ++
        flush_section splitter docMeta st.current_text st.current_title st.section_index,
      current_text := line,
      current_title := detected,
      section_index := st.section_index + 1 }
  else
    { st with current_text := st.current_text ++ "\n" ++ line }

/-- `_chunk_by_sections`, parametric in the sub-splitter. -/
def chunk_by_sections_with (splitter : Document → List Document)
    (doc : Document) (institution : String) : List Document :=
  let compiled_patterns := get_patterns institution
  let st := (splitNl doc.page_content).foldl
    (seg_step compiled_patterns splitter doc.metadata)
    { sections := [], current_text := "", current_title := none, section_index := 0 }
  st.sections ++
    flush_section splitter doc.metadata st.current_text st.current_title st.section_index

/-- `_chunk_by_sections` as the pipeline runs it. -/
def chunk_by_sections (doc : Document) (institution : String) : List Document :=
  chunk_by_sections_with recursive_splitter_model doc institution

/-- `_chunk_recursive`: the whole-document fixed-window strategy. -/
def chunk_recursive (doc : Document) : List Document := recursive_splitter_model doc

/-! ### Metadata enrichment and the ingestion pipeline -/

/-- The per-chunk enrichment of `_add_metadata` (`chunk.metadata.update({...})`
followed by the two `setdefault`s). -/
def enrichMeta (md : List (String × MVal)) (institution : String) (year : Int)
    (title theme source : String) (i : Int) : List (String × MVal) :=
  mdSetdefault
    (mdSetdefault
      (mdUpdate md
        [("institution", .str institution), ("year", .int year), ("title", .str title),
         ("theme", .str theme), ("source", .str source), ("chunk_index", .int i)])
      "section" (.str ""))
    "section_index" (.int (-1))

/-- `_add_metadata`. -/
def add_metadata (chunks : List Document) (institution : String) (year : Int)
    (title theme source : String) : List Document :=
  chunks.enum.map (fun ic =>
    { ic.2 with metadata := enrichMeta ic.2.metadata institution year title theme source ic.1 })

/-- `ingest_pdf` from the loaded document onward (PDF loading, the
file-existence check and the progress printing are I/O at the collaborator
boundary; `source` is `str(file_path)`). The strategy dispatch, the
enrichment and the minimum-length post-filter are the source's lines 338-344. -/
def ingest_pdf (doc : Document) (institution : String) (year : Int)
    (title : String) (theme : String) (source : String) (strategy : String) : List Document :=
  let chunks := if strategy == "sections" then chunk_by_sections doc institution
                else chunk_recursive doc
  let chunks := add_metadata chunks institution year title theme source
  chunks.filter (fun c => decide (150 < (pyStrip c.page_content).length))

/-! ### Generic helper lemmas -/

theorem foldl_inv {α β : Type _} (P : α → Prop) (f : α → β → α) :
    ∀ (l : List β) (init : α), P init → (∀ st b, P st → P (f st b)) → P (l.foldl f init) := by
  intro l
  induction l with
  | nil => intro init h0 _; exact h0
  | cons b t ih => intro init h0 hstep; exact ih _ (hstep _ _ h0) hstep

theorem foldl_inv_mem {α β : Type _} (P : α → Prop) (f : α → β → α) :
    ∀ (l : List β) (init : α), P init → (∀ st b, b ∈ l → P st → P (f st b)) →
      P (l.foldl f init) := by
  intro l
  induction l with
  | nil => intro init h0 _; exact h0
  | cons b t ih =>
    intro init h0 hstep
    exact ih _ (hstep _ _ (List.mem_cons_self b t) h0)
      (fun st x hx => hstep st x (List.mem_cons_of_mem _ hx))

theorem mdGet_nil (k : String) : mdGet [] k = none := rfl

theorem mdGet_cons (a : String × MVal) (t : List (String × MVal)) (k : String) :
    mdGet (a :: t) k = if a.1 == k then some a.2 else mdGet t k := by
  cases h : a.1 == k with
  | true => simp [mdGet, List.find?_cons, h]
  | false => simp [mdGet, List.find?_cons, h]

theorem find?_map_set_self (k : String) (v : MVal) :
    ∀ md : List (String × MVal), md.any (fun p => p.1 == k) = true →
      mdGet (md.map (fun p => if p.1 == k then (k, v) else p)) k = some v := by
  intro md
  induction md with
  | nil => intro h; simp at h
  | cons a t ih =>
    intro h
    rw [List.map_cons, mdGet_cons]
    cases ha : a.1 == k with
    | true => simp
    | false =>
      rw [List.any_cons, ha, Bool.false_or] at h
      simpa [ha] using ih h

theorem find?_map_set_ne (k : String) (v : MVal) (q : String) (h : q ≠ k) :
    ∀ md : List (String × MVal),
      mdGet (md.map (fun p => if p.1 == k then (k, v) else p)) q = mdGet md q := by
  have hkq : (k == q) = false := by simp; exact fun hh => h hh.symm
  intro md
  induction md with
  | nil => rfl
  | cons a t ih =>
    rw [List.map_cons, mdGet_cons, mdGet_cons]
    cases ha : a.1 == k with
    | true =>
      have hak : a.1 = k := by simpa using ha
      simpa [hak, hkq] using ih
    | false =>
      cases haq : a.1 == q with
      | true => simp [haq]
      | false => simpa [haq] using ih

theorem mdGet_append_single (md : List (String × MVal)) (k : String) (v : MVal) :
    mdGet (md ++ [(k, v)]) k = some ((mdGet md k).getD v) := by
  induction md with
  | nil => simp [mdGet_cons, mdGet_nil]
  | cons a t ih =>
    rw [List.cons_append, mdGet_cons, mdGet_cons]
    cases haq : a.1 == k with
    | true => rfl
    | false => simp; exact ih

theorem mdGet_append_single_ne (md : List (String × MVal)) (k : String) (v : MVal)
    (q : String) (h : q ≠ k) : mdGet (md ++ [(k, v)]) q = mdGet md q := by
  have hkq : (k == q) = false := by simp; exact fun hh => h hh.symm
  induction md with
  | nil => simp [mdGet_cons, mdGet_nil, hkq]
  | cons a t ih =>
    rw [List.cons_append, mdGet_cons, mdGet_cons]
    cases haq : a.1 == q with
    | true => rfl
    | false => simp; exact ih

theorem mdIsSome_of_any (md : List (String × MVal)) (k : String)
    (h : md.any (fun p => p.1 == k) = true) : (mdGet md k).isSome := by
  induction md with
  | nil => simp at h
  | cons a t ih =>
    rw [mdGet_cons]
    rw [List.any_cons] at h
    cases ha : a.1 == k with
    | true => rfl
    | false =>
      rw [ha, Bool.false_or] at h
      simp
      exact ih h

theorem mdAny_of_isSome (md : List (String × MVal)) (k : String)
    (h : (mdGet md k).isSome) : md.any (fun p => p.1 == k) = true := by
  induction md with
  | nil => rw [mdGet_nil] at h; simp at h
  | cons a t ih =>
    rw [mdGet_cons] at h
    rw [List.any_cons]
    cases ha : a.1 == k with
    | true => simp
    | false =>
      rw [ha] at h
      simp only [Bool.false_eq_true, if_false] at h
      simp [ih h]

theorem mdGet_mdSet_self (md : List (String × MVal)) (k : String) (v : MVal) :
    mdGet (mdSet md k v) k = some v := by
  unfold mdSet
  by_cases hany : md.any (fun p => p.1 == k) = true
  · rw [if_pos hany]
    exact find?_map_set_self k v md hany
  · rw [if_neg hany, mdGet_append_single]
    rcases hs : mdGet md k with _ | w
    · rfl
    · exact absurd (mdAny_of_isSome md k (by rw [hs]; rfl)) hany

theorem mdGet_mdSet_ne (md : List (String × MVal)) (k : String) (v : MVal) (q : String)
    (h : q ≠ k) : mdGet (mdSet md k v) q = mdGet md q := by
  unfold mdSet
  by_cases hany : md.any (fun p => p.1 == k) = true
  · rw [if_pos hany]
    exact find?_map_set_ne k v q h md
  · rw [if_neg hany]
    exact mdGet_append_single_ne md k v q h

theorem mdGet_mdSetdefault_ne (md : List (String × MVal)) (k : String) (v : MVal) (q : String)
    (h : q ≠ k) : mdGet (mdSetdefault md k v) q = mdGet md q := by
  unfold mdSetdefault
  by_cases hany : md.any (fun p => p.1 == k) = true
  · rw [if_pos hany]
  · rw [if_neg hany]
    exact mdGet_append_single_ne md k v q h

theorem mdGet_mdSetdefault_self (md : List (String × MVal)) (k : String) (v : MVal) :
    mdGet (mdSetdefault md k v) k = some ((mdGet md k).getD v) := by
  unfold mdSetdefault
  by_cases hany : md.any (fun p => p.1 == k) = true
  · rw [if_pos hany]
    rcases hsome : mdGet md k with _ | w
    · have := mdIsSome_of_any md k hany
      rw [hsome] at this
      simp at this
    · rfl
  · rw [if_neg hany]
    exact mdGet_append_single md k v

/-! ### Metadata facts about the splitter, the flush step and enrichment -/

/-- What the pipeline relies on from any fixed-window sub-splitter: a sub-chunk
carries the parent's metadata at every key other than the recorded start
offset (it may also simply lack the key). -/
def splitterPropagates (splitter : Document → List Document) : Prop :=
  ∀ d sc, sc ∈ splitter d → ∀ k, k ≠ "start_index" →
    mdGet sc.metadata k = mdGet d.metadata k ∨ mdGet sc.metadata k = none

theorem model_propagates : splitterPropagates recursive_splitter_model := by
  intro d sc hmem k hk
  simp only [recursive_splitter_model] at hmem
  rw [List.mem_map] at hmem
  obtain ⟨s, _, rfl⟩ := hmem
  left
  exact mdGet_mdSet_ne d.metadata "start_index" (.int s) k hk

theorem mkSectionChunk_idx (docMeta : List (String × MVal)) (text : String)
    (title : Option String) (idx : Int) :
    mdGet (mkSectionChunk docMeta text title idx).metadata "section_index" = some (.int idx) := by
  unfold mkSectionChunk mdUpdate
  simp only [List.foldl]
  exact mdGet_mdSet_self _ _ _

theorem mkSectionChunk_sec (docMeta : List (String × MVal)) (text : String)
    (title : Option String) (idx : Int) :
    mdGet (mkSectionChunk docMeta text title idx).metadata "section" =
      some (.str (title.getD "")) := by
  unfold mkSectionChunk mdUpdate
  simp only [List.foldl]
  rw [mdGet_mdSet_ne _ _ _ _ (by decide)]
  exact mdGet_mdSet_self _ _ _

theorem inherit_idx (title : Option String) (idx : Int) (sc : Document)
    (hv : mdGet sc.metadata "section_index" = some (.int idx) ∨
          mdGet sc.metadata "section_index" = none) :
    mdGet (inheritSectionMeta title idx sc).metadata "section_index" = some (.int idx) := by
  unfold inheritSectionMeta
  dsimp only
  rw [mdGet_mdSetdefault_self, mdGet_mdSetdefault_ne _ _ _ _ (by decide)]
  rcases hv with hv | hv <;> rw [hv] <;> rfl

theorem inherit_sec (title : Option String) (idx : Int) (sc : Document)
    (hv : mdGet sc.metadata "section" = some (.str (title.getD "")) ∨
          mdGet sc.metadata "section" = none) :
    mdGet (inheritSectionMeta title idx sc).metadata "section" =
      some (.str (title.getD "")) := by
  unfold inheritSectionMeta
  dsimp only
  rw [mdGet_mdSetdefault_ne _ _ _ _ (by decide), mdGet_mdSetdefault_self]
  rcases hv with hv | hv <;> rw [hv] <;> rfl

/-- Every chunk emitted by one flush carries exactly the flushed section's
`section_index` and `section` metadata. -/
theorem flush_section_meta (splitter : Document → List Document)
    (hspl : splitterPropagates splitter) (docMeta : List (String × MVal))
    (text : String) (title : Option String) (idx : Int) :
    ∀ c ∈ flush_section splitter docMeta text title idx,
      mdGet c.metadata "section_index" = some (.int idx) ∧
      mdGet c.metadata "section" = some (.str (title.getD "")) := by
  intro c hc
  unfold flush_section at hc
  by_cases h0 : (pyStrip text == "") = true
  · rw [if_pos h0] at hc
    simp at hc
  · rw [if_neg h0] at hc
    by_cases h1 : CHUNK_SIZE * 2 < (pyStrip text).length
    · rw [if_pos h1] at hc
      rw [List.mem_map] at hc
      obtain ⟨sc, hsc, rfl⟩ := hc
      refine ⟨inherit_idx title idx sc ?_, inherit_sec title idx sc ?_⟩
      · rcases hspl _ sc hsc "section_index" (by decide) with hh | hh
        · rw [hh, mkSectionChunk_idx]
          left; rfl
        · right; exact hh
      · rcases hspl _ sc hsc "section" (by decide) with hh | hh
        · rw [hh, mkSectionChunk_sec]
          left; rfl
        · right; exact hh
    · rw [if_neg h1] at hc
      rw [List.mem_singleton] at hc
      subst hc
      exact ⟨mkSectionChunk_idx _ _ _ _, mkSectionChunk_sec _ _ _ _⟩

/-! ### The segmentation loop invariant -/

/-- The `section_index` of a chunk, as an integer (0 when absent or non-integer;
every chunk the section strategy emits carries an integer value). -/
def secIdxVal (c : Document) : Int :=
  match mdGet c.metadata "section_index" with
  | some (.int n) => n
  | _ => 0

def secLe (a b : Document) : Prop := secIdxVal a ≤ secIdxVal b

/-- Invariant maintained by every iteration of the `_chunk_by_sections` loop. -/
def SegInv (st : SegState) : Prop :=
  0 ≤ st.section_index ∧
  (st.current_title = none ∨ 1 ≤ st.section_index) ∧
  List.Pairwise secLe st.sections ∧
  ∀ c ∈ st.sections, ∃ n : Int,
    mdGet c.metadata "section_index" = some (.int n) ∧ n ≤ st.section_index ∧
    (n = 0 → mdGet c.metadata "section" = some (.str ""))

theorem seg_extend (splitter : Document → List Document)
    (hspl : splitterPropagates splitter) (docMeta : List (String × MVal))
    (st : SegState) (hinv : SegInv st) :
    List.Pairwise secLe (st.sections ++
      flush_section splitter docMeta st.current_text st.current_title st.section_index) ∧
    ∀ c ∈ st.sections ++
      flush_section splitter docMeta st.current_text st.current_title st.section_index,
      ∃ n : Int, mdGet c.metadata "section_index" = some (.int n) ∧
        n ≤ st.section_index ∧
        (n = 0 → mdGet c.metadata "section" = some (.str "")) := by
  obtain ⟨h0, htitle, hpw, hmem⟩ := hinv
  have hflush := flush_section_meta splitter hspl docMeta
    st.current_text st.current_title st.section_index
  constructor
  · rw [List.pairwise_append]
    refine ⟨hpw, ?_, ?_⟩
    · apply List.pairwise_of_forall_mem_list
      intro a ha b hb
      unfold secLe secIdxVal
      rw [(hflush a ha).1, (hflush b hb).1]
    · intro a ha b hb
      obtain ⟨n, hn, hle, _⟩ := hmem a ha
      unfold secLe secIdxVal
      rw [hn, (hflush b hb).1]
      exact hle
  · intro c hc
    rw [List.mem_append] at hc
    rcases hc with hc | hc
    · exact hmem c hc
    · obtain ⟨hidx, hsec⟩ := hflush c hc
      refine ⟨st.section_index, hidx, le_refl _, ?_⟩
      intro hz
      rcases htitle with ht | ht
      · rw [ht] at hsec
        exact hsec
      · rw [hz] at ht
        norm_num at ht

theorem seg_step_inv (pats : List Pat) (splitter : Document → List Document)
    (hspl : splitterPropagates splitter) (docMeta : List (String × MVal))
    (st : SegState) (line : String) (hinv : SegInv st) :
    SegInv (seg_step pats splitter docMeta st line) := by
  unfold seg_step
  by_cases hcond :
      (optTruthy (detect_section_title (pyStrip (collapseWs line)) pats)
        && (st.current_text != "")) = true
  · rw [if_pos hcond]
    obtain ⟨hpw', hmem'⟩ := seg_extend splitter hspl docMeta st hinv
    obtain ⟨h0, _, _, _⟩ := hinv
    unfold SegInv
    dsimp only
    refine ⟨by omega, Or.inr (by omega), hpw', ?_⟩
    intro c hc
    obtain ⟨n, hn, hle, hz⟩ := hmem' c hc
    exact ⟨n, hn, by omega, hz⟩
  · rw [if_neg hcond]
    exact hinv

theorem chunk_by_sections_with_inv (splitter : Document → List Document)
    (hspl : splitterPropagates splitter) (doc : Document) (institution : String) :
    List.Pairwise secLe (chunk_by_sections_with splitter doc institution) ∧
    ∀ c ∈ chunk_by_sections_with splitter doc institution,
      ∃ n : Int, mdGet c.metadata "section_index" = some (.int n) ∧
        (n = 0 → mdGet c.metadata "section" = some (.str "")) := by
  unfold chunk_by_sections_with
  have hst : SegInv ((splitNl doc.page_content).foldl
      (seg_step (get_patterns institution) splitter doc.metadata)
      { sections := [], current_text := "", current_title := none, section_index := 0 }) := by
    apply foldl_inv SegInv
    · exact ⟨le_refl 0, Or.inl rfl, List.Pairwise.nil, by simp⟩
    · intro s b hs
      exact seg_step_inv _ _ hspl _ s b hs
  obtain ⟨hpw, hmem⟩ := seg_extend splitter hspl doc.metadata _ hst
  refine ⟨hpw, ?_⟩
  intro c hc
  obtain ⟨n, hn, _, hz⟩ := hmem c hc
  exact ⟨n, hn, hz⟩

/-! ### Enrichment facts -/

theorem enrichMeta_chunk_index (md : List (String × MVal)) (institution : String)
    (year : Int) (title theme source : String) (i : Int) :
    mdGet (enrichMeta md institution year title theme source i) "chunk_index" =
      some (.int i) := by
  unfold enrichMeta mdUpdate
  simp only [List.foldl]
  rw [mdGet_mdSetdefault_ne _ _ _ _ (by decide), mdGet_mdSetdefault_ne _ _ _ _ (by decide)]
  exact mdGet_mdSet_self _ _ _

theorem enrichMeta_section_index (md : List (String × MVal)) (institution : String)
    (year : Int) (title theme source : String) (i : Int)
    (hv : (mdGet md "section_index").isSome) :
    mdGet (enrichMeta md institution year title theme source i) "section_index" =
      mdGet md "section_index" := by
  unfold enrichMeta mdUpdate
  simp only [List.foldl]
  rw [mdGet_mdSetdefault_self, mdGet_mdSetdefault_ne _ _ _ _ (by decide),
    mdGet_mdSet_ne _ _ _ _ (by decide), mdGet_mdSet_ne _ _ _ _ (by decide),
    mdGet_mdSet_ne _ _ _ _ (by decide), mdGet_mdSet_ne _ _ _ _ (by decide),
    mdGet_mdSet_ne _ _ _ _ (by decide), mdGet_mdSet_ne _ _ _ _ (by decide)]
  rcases hs : mdGet md "section_index" with _ | w
  · rw [hs] at hv
    simp at hv
  · rfl

/-- The enrichment map of `_add_metadata` as a function on numbered chunks. -/
def enrichChunk (institution : String) (year : Int) (title theme source : String)
    (ic : Nat × Document) : Document :=
  { ic.2 with metadata := enrichMeta ic.2.metadata institution year title theme source ic.1 }

theorem add_metadata_eq_map (chunks : List Document) (institution : String) (year : Int)
    (title theme source : String) :
    add_metadata chunks institution year title theme source =
      chunks.enum.map (enrichChunk institution year title theme source) := rfl

/-! ### chunk_index facts -/

/-- The `chunk_index` of a chunk, as an integer (-1 when absent; enrichment
always sets an integer value). -/
def chunkIdxVal (c : Document) : Int :=
  match mdGet c.metadata "chunk_index" with
  | some (.int n) => n
  | _ => -1

theorem enrichChunk_chunkIdx (institution : String) (year : Int) (title theme source : String)
    (p : Nat × Document) :
    mdGet (enrichChunk institution year title theme source p).metadata "chunk_index" =
      some (.int p.1) := by
  unfold enrichChunk
  exact enrichMeta_chunk_index _ _ _ _ _ _ _

theorem enrich_chunkIdx_enumFrom (institution : String) (year : Int)
    (title theme source : String) :
    ∀ (l : List Document) (n : Nat),
      ∀ c ∈ (l.enumFrom n).map (enrichChunk institution year title theme source),
        ∃ m : Int, mdGet c.metadata "chunk_index" = some (.int m) ∧ (n : Int) ≤ m := by
  intro l
  induction l with
  | nil => intro n c hc; simp at hc
  | cons a t ih =>
    intro n c hc
    rw [show List.enumFrom n (a :: t) = (n, a) :: List.enumFrom (n + 1) t from rfl,
      List.map_cons, List.mem_cons] at hc
    rcases hc with rfl | hc
    · exact ⟨(n : Int), enrichChunk_chunkIdx _ _ _ _ _ _, le_refl _⟩
    · obtain ⟨m, hm, hle⟩ := ih (n + 1) c hc
      refine ⟨m, hm, ?_⟩
      have h2 : ((n : Int) + 1) ≤ m := by exact_mod_cast hle
      omega

theorem enrich_pairwise_lt (institution : String) (year : Int) (title theme source : String) :
    ∀ (l : List Document) (n : Nat),
      List.Pairwise (fun a b => chunkIdxVal a < chunkIdxVal b)
        ((l.enumFrom n).map (enrichChunk institution year title theme source)) := by
  intro l
  induction l with
  | nil => intro n; simp
  | cons a t ih =>
    intro n
    rw [show List.enumFrom n (a :: t) = (n, a) :: List.enumFrom (n + 1) t from rfl, List.map_cons]
    refine List.Pairwise.cons ?_ (ih (n + 1))
    intro b hb
    obtain ⟨m, hm, hle⟩ :=
      enrich_chunkIdx_enumFrom institution year title theme source t (n + 1) b hb
    unfold chunkIdxVal
    rw [enrichChunk_chunkIdx, hm]
    have h2 : ((n : Int) + 1) ≤ m := by exact_mod_cast hle
    show ((n, a).1 : Int) < m
    omega

theorem enum_map_snd_eq {α : Type _} (l : List α) : l.enum.map Prod.snd = l :=
  List.enumFrom_map_snd 0 l

theorem enrich_map_chunkIdx (institution : String) (year : Int) (title theme source : String) :
    ∀ (l : List Document) (n : Nat),
      (((l.enumFrom n).map (enrichChunk institution year title theme source)).map chunkIdxVal) =
        (List.range' n l.length).map Int.ofNat := by
  intro l
  induction l with
  | nil => intro n; rfl
  | cons a t ih =>
    intro n
    rw [show List.enumFrom n (a :: t) = (n, a) :: List.enumFrom (n + 1) t from rfl,
      List.map_cons, List.map_cons,
      show (a :: t).length = t.length + 1 from rfl, List.range'_succ, List.map_cons]
    congr 1
    · unfold chunkIdxVal
      rw [enrichChunk_chunkIdx]
      rfl
    · exact ih (n + 1)

/-! ### Whitespace facts -/

theorem pyStrip_allWs (s : String) (h : s.data.all isPySpace = true) : pyStrip s = "" := by
  unfold pyStrip
  have h1 : s.data.dropWhile isPySpace = [] := by
    rw [List.dropWhile_eq_nil_iff]
    intro x hx
    exact List.all_eq_true.mp h x hx
  rw [h1]
  rfl

theorem collapseWsAux_cons (b : Bool) (c : Char) (cs : List Char) :
    collapseWsAux b (c :: cs) =
      if isPySpace c then
        (if b then collapseWsAux true cs else ' ' :: collapseWsAux true cs)
      else c :: collapseWsAux false cs := rfl

theorem collapseWsAux_allWs : ∀ (l : List Char) (b : Bool), l.all isPySpace = true →
    (collapseWsAux b l).all isPySpace = true := by
  intro l
  induction l with
  | nil => intro b _; rfl
  | cons c cs ih =>
    intro b h
    rw [List.all_cons, Bool.and_eq_true] at h
    rw [collapseWsAux_cons, if_pos h.1]
    cases b with
    | true =>
      rw [if_pos rfl]
      exact ih true h.2
    | false =>
      rw [if_neg Bool.false_ne_true, List.all_cons]
      rw [show isPySpace ' ' = true from rfl, Bool.true_and]
      exact ih true h.2

theorem splitNlAux_nil (cur : List Char) :
    splitNlAux [] cur = [String.mk cur.reverse] := rfl

theorem splitNlAux_cons (c : Char) (cs cur : List Char) :
    splitNlAux (c :: cs) cur =
      if c = '\n' then String.mk cur.reverse :: splitNlAux cs []
      else splitNlAux cs (c :: cur) := rfl

theorem splitNlAux_allWs : ∀ (cs cur : List Char),
    cs.all isPySpace = true → cur.all isPySpace = true →
    ∀ line ∈ splitNlAux cs cur, line.data.all isPySpace = true := by
  intro cs
  induction cs with
  | nil =>
    intro cur _ hcur line hline
    rw [splitNlAux_nil, List.mem_singleton] at hline
    subst hline
    show cur.reverse.all isPySpace = true
    rw [List.all_eq_true] at hcur ⊢
    intro x hx
    exact hcur x (List.mem_reverse.mp hx)
  | cons c t ih =>
    intro cur hcs hcur line hline
    rw [List.all_cons, Bool.and_eq_true] at hcs
    rw [splitNlAux_cons] at hline
    by_cases hc : c = '\n'
    · rw [if_pos hc, List.mem_cons] at hline
      rcases hline with rfl | hline
      · show cur.reverse.all isPySpace = true
        rw [List.all_eq_true] at hcur ⊢
        intro x hx
        exact hcur x (List.mem_reverse.mp hx)
      · exact ih [] hcs.2 rfl line hline
    · rw [if_neg hc] at hline
      refine ih (c :: cur) hcs.2 ?_ line hline
      rw [List.all_cons, hcs.1, hcur]
      rfl

theorem detect_empty (pats : List Pat) : detect_section_title "" pats = none := rfl

theorem detect_ws (line : String) (pats : List Pat)
    (h : line.data.all isPySpace = true) :
    detect_section_title (pyStrip (collapseWs line)) pats = none := by
  have hz : pyStrip (collapseWs line) = "" :=
    pyStrip_allWs _ (collapseWsAux_allWs line.data false h)
  rw [hz]
  exact detect_empty pats

/-! ### Substring facts -/

theorem startsWithCh_iff (needle : List Char) : ∀ hay : List Char,
    startsWithCh needle hay = true ↔ ∃ r, hay = needle ++ r := by
  induction needle with
  | nil =>
    intro hay
    simp [startsWithCh]
  | cons n ns ih =>
    intro hay
    cases hay with
    | nil => simp [startsWithCh]
    | cons h hs =>
      rw [show startsWithCh (n :: ns) (h :: hs) = (n == h && startsWithCh ns hs) from rfl,
        Bool.and_eq_true, ih hs]
      constructor
      · rintro ⟨he, r, rfl⟩
        exact ⟨r, by rw [List.cons_append, show n = h from by simpa using he]⟩
      · rintro ⟨r, hr⟩
        rw [List.cons_append] at hr
        injection hr with h1 h2
        exact ⟨by simp [h1], r, h2⟩

theorem containsSubAux_iff (needle : List Char) : ∀ hay : List Char,
    containsSubAux needle hay = true ↔ ∃ l r, hay = l ++ needle ++ r := by
  intro hay
  induction hay with
  | nil =>
    rw [show containsSubAux needle [] = startsWithCh needle [] from rfl, startsWithCh_iff]
    constructor
    · rintro ⟨r, hr⟩
      exact ⟨[], r, by simpa using hr⟩
    · rintro ⟨l, r, hr⟩
      have h1 := hr.symm
      simp only [List.append_eq_nil] at h1
      exact ⟨[], by simp [h1.1.2]⟩
  | cons h hs ih =>
    rw [show containsSubAux needle (h :: hs) =
        (startsWithCh needle (h :: hs) || containsSubAux needle hs) from rfl,
      Bool.or_eq_true, startsWithCh_iff, ih]
    constructor
    · rintro (⟨r, hr⟩ | ⟨l, r, hr⟩)
      · exact ⟨[], r, by simpa using hr⟩
      · exact ⟨h :: l, r, by simp [hr]⟩
    · rintro ⟨l, r, hr⟩
      cases l with
      | nil =>
        left
        exact ⟨r, by simpa using hr⟩
      | cons x xs =>
        right
        rw [List.cons_append, List.cons_append] at hr
        injection hr with h1 h2
        exact ⟨xs, r, by simpa using h2⟩

/-! ### Unfolding equations for the pipeline -/

theorem ingest_pdf_eq (doc : Document) (institution : String) (year : Int)
    (title theme source strategy : String) :
    ingest_pdf doc institution year title theme source strategy =
      (add_metadata
        (if strategy == "sections" then chunk_by_sections doc institution
         else chunk_recursive doc) institution year title theme source).filter
        (fun c => decide (150 < (pyStrip c.page_content).length)) := rfl

theorem ingest_pdf_sections (doc : Document) (institution : String) (year : Int)
    (title theme source : String) :
    ingest_pdf doc institution year title theme source "sections" =
      (add_metadata (chunk_by_sections doc institution) institution year title theme source).filter
        (fun c => decide (150 < (pyStrip c.page_content).length)) := rfl

/-! ### Concrete documents used by the scenarios -/

/-- The spec's first concrete scenario (the claim C1 input). -/
def c1Doc : Document :=
  { page_content := "CHAPITRE I INTRODUCTION GENERALE\nCeci est le texte.\n\nI - PREMIERE PARTIE\nContenu de la partie un.",
    metadata := [] }

/-- A three-section document whose middle section is short enough to be dropped
by the post-filter (used against claim C2). -/
def c2Doc : Document :=
  { page_content := "I - PREMIERE PARTIE DU RAPPORT\nle rapport souligne que la mise en oeuvre de la strategie nationale demande un pilotage renforce et des moyens adaptes pour atteindre tous les objectifs fixes.\nII - DEUXIEME PARTIE LONGUE\npetit.\nIII - TROISIEME PARTIE FINALE\nles constats formules dans cette partie montrent que les credits ouverts ont ete consommes sans evaluation prealable des besoins reels des services concernes.",
    metadata := [] }

/-- A document whose leading line is whitespace-only: the buffer is truthy but
strip-empty when the first heading is detected (used against claim C10). -/
def c10Doc : Document :=
  { page_content := " \nI - PREMIERE PARTIE\nUn contenu de partie.",
    metadata := [] }

/-- A whitespace-only document. -/
def wsDoc : Document := { page_content := "  \n\t\n   ", metadata := [] }

def dummyDoc : Document := { page_content := "", metadata := [] }

/-- A 4001-character text, longer than twice the nominal chunk size. -/
def c3Text : String := String.mk (List.replicate 4001 'a')

theorem pyStrip_repl_a (n : Nat) :
    pyStrip (String.mk (List.replicate n 'a')) = String.mk (List.replicate n 'a') := by
  cases n with
  | zero => rfl
  | succ m =>
    unfold pyStrip
    dsimp only
    rw [List.replicate_succ, List.dropWhile_cons, if_neg (by decide),
      ← List.replicate_succ, List.reverse_replicate, List.replicate_succ,
      List.dropWhile_cons, if_neg (by decide), ← List.replicate_succ, List.reverse_replicate]

theorem c3Text_facts : pyStrip c3Text ≠ "" ∧ CHUNK_SIZE * 2 < (pyStrip c3Text).length := by
  have hs : pyStrip c3Text = String.mk (List.replicate 4001 'a') := pyStrip_repl_a 4001
  constructor
  · rw [hs]
    intro hcontr
    have hlen := congrArg String.length hcontr
    rw [show (String.mk (List.replicate 4001 'a')).length = (List.replicate 4001 'a').length
        from rfl, List.length_replicate] at hlen
    exact absurd hlen (by decide)
  · rw [hs, show (String.mk (List.replicate 4001 'a')).length = (List.replicate 4001 'a').length
        from rfl, List.length_replicate]
    decide

/-! ### The claims -/

/-- C1 (counterexample): on the five-line scenario document with institution
"Cour des comptes", `_chunk_by_sections` does NOT emit section 0 with section
metadata "CHAPITRE I INTRODUCTION GENERALE": the chapter heading is detected on
the first line while the accumulated buffer is still empty, so the title is
never recorded and section 0 carries the empty-string section sentinel. -/
theorem c1_counterexample :
    ¬ ((chunk_by_sections c1Doc "Cour des comptes").map
        (fun c => (mdGet c.metadata "section", mdGet c.metadata "section_index")) =
      [(some (.str "CHAPITRE I INTRODUCTION GENERALE"), some (.int 0)),
       (some (.str "I - PREMIERE PARTIE"), some (.int 1))]) := by
  decide

/-- C1 (amended): the scenario document yields exactly 2 sections in order:
section_index 0 with section metadata "" whose text is the chapter heading line
plus its body line, and section_index 1 with section metadata
"I - PREMIERE PARTIE" whose text is that heading line plus its body line. -/
theorem c1_amended :
    (chunk_by_sections c1Doc "Cour des comptes").map
        (fun c => (c.page_content, mdGet c.metadata "section", mdGet c.metadata "section_index")) =
      [("CHAPITRE I INTRODUCTION GENERALE\nCeci est le texte.",
        some (.str ""), some (.int 0)),
       ("I - PREMIERE PARTIE\nContenu de la partie un.",
        some (.str "I - PREMIERE PARTIE"), some (.int 1))] := by
  decide

/-- C2 (counterexample): `chunk_index` is assigned by `_add_metadata` BEFORE the
minimum-length filter, so on a document whose middle section is short, the list
returned by `ingest_pdf` has chunk_index values [0, 2] — with a gap — and not
[0, 1] as the claim requires. -/
theorem c2_counterexample :
    (ingest_pdf c2Doc "Cour des comptes" 2024 "Rapport" "theme" "doc.pdf" "sections").map
        chunkIdxVal = [0, 2] ∧
    ¬ ((ingest_pdf c2Doc "Cour des comptes" 2024 "Rapport" "theme" "doc.pdf" "sections").map
        chunkIdxVal = [0, 1]) := by
  exact ⟨by decide, by decide⟩

/-- C2 (amended): `chunk_index` equals the chunk's 0-based position in the
enriched list BEFORE the minimum-length filter (`_add_metadata` runs first);
consequently the chunk_index values of the list returned by `ingest_pdf` are
strictly increasing in output order, but may have gaps where the filter
dropped short chunks. -/
theorem c2_amended (chunks : List Document) (doc : Document) (institution : String)
    (year : Int) (title theme source strategy : String) :
    (add_metadata chunks institution year title theme source).map chunkIdxVal =
      (List.range chunks.length).map Int.ofNat ∧
    List.Pairwise (fun a b => chunkIdxVal a < chunkIdxVal b)
      (ingest_pdf doc institution year title theme source strategy) := by
  constructor
  · rw [add_metadata_eq_map, List.range_eq_range']
    exact enrich_map_chunkIdx institution year title theme source chunks 0
  · rw [ingest_pdf_eq]
    apply List.Pairwise.sublist (List.filter_sublist _)
    rw [add_metadata_eq_map]
    exact enrich_pairwise_lt institution year title theme source _ 0

/-- C3: in `_flush_section`, a non-empty stripped buffer longer than
2 * CHUNK_SIZE is passed to the fixed-window sub-splitter unconditionally (the
statement quantifies over every title, protected or not — the protected-section
classifier is not an input of the decision), each sub-chunk receiving the
parent's section/section_index only through `setdefault`; a non-empty buffer of
length at most 2 * CHUNK_SIZE is emitted as the single candidate chunk as-is. -/
theorem c3_flush_oversize (splitter : Document → List Document)
    (docMeta : List (String × MVal)) (text : String) (title : Option String) (idx : Int)
    (hne : pyStrip text ≠ "") :
    (CHUNK_SIZE * 2 < (pyStrip text).length →
      flush_section splitter docMeta text title idx =
        (splitter (mkSectionChunk docMeta (pyStrip text) title idx)).map
          (inheritSectionMeta title idx)) ∧
    ((pyStrip text).length ≤ CHUNK_SIZE * 2 →
      flush_section splitter docMeta text title idx =
        [mkSectionChunk docMeta (pyStrip text) title idx]) := by
  have h0 : ¬ ((pyStrip text == "") = true) := by simpa using hne
  constructor
  · intro h1
    simp only [flush_section]
    rw [if_neg h0, if_pos h1]
  · intro h1
    simp only [flush_section]
    rw [if_neg h0, if_neg (by omega)]

theorem c3_witness :
    (pyStrip c3Text ≠ "" ∧ CHUNK_SIZE * 2 < (pyStrip c3Text).length) ∧
    flush_section recursive_splitter_model [] c3Text none 0 =
      (recursive_splitter_model (mkSectionChunk [] (pyStrip c3Text) none 0)).map
        (inheritSectionMeta none 0) :=
  ⟨c3Text_facts,
   (c3_flush_oversize recursive_splitter_model [] c3Text none 0 c3Text_facts.1).1
     c3Text_facts.2⟩

/-- C4: in the output of the section strategy the `section_index` metadata is
non-decreasing in output order, both for `_chunk_by_sections` itself and for
the list returned by `ingest_pdf` with strategy "sections" (enrichment
preserves a present section_index and the post-filter preserves order). -/
theorem c4_monotone_section_index (doc : Document) (institution : String) (year : Int)
    (title theme source : String) :
    List.Pairwise secLe (chunk_by_sections doc institution) ∧
    List.Pairwise secLe (ingest_pdf doc institution year title theme source "sections") := by
  have hmain := chunk_by_sections_with_inv recursive_splitter_model model_propagates
    doc institution
  rw [show chunk_by_sections_with recursive_splitter_model doc institution =
      chunk_by_sections doc institution from rfl] at hmain
  refine ⟨hmain.1, ?_⟩
  rw [ingest_pdf_sections]
  apply List.Pairwise.sublist (List.filter_sublist _)
  rw [add_metadata_eq_map]
  have hsnd : (chunk_by_sections doc institution).enum.map Prod.snd =
      chunk_by_sections doc institution := enum_map_snd_eq _
  have hpw2 : List.Pairwise (fun p q : Nat × Document => secLe p.2 q.2)
      (chunk_by_sections doc institution).enum := by
    have h1 := hmain.1
    rw [← hsnd] at h1
    exact List.pairwise_map.mp h1
  rw [List.pairwise_map]
  refine List.Pairwise.imp_of_mem ?_ hpw2
  intro p q hp hq hle
  obtain ⟨np, hnp, _⟩ := hmain.2 p.2 (by rw [← hsnd]; exact List.mem_map_of_mem _ hp)
  obtain ⟨nq, hnq, _⟩ := hmain.2 q.2 (by rw [← hsnd]; exact List.mem_map_of_mem _ hq)
  unfold secLe secIdxVal enrichChunk at *
  dsimp only at *
  rw [enrichMeta_section_index _ _ _ _ _ _ _ (by rw [hnp]; rfl),
    enrichMeta_section_index _ _ _ _ _ _ _ (by rw [hnq]; rfl)]
  exact hle

/-- C5: every chunk returned by `ingest_pdf` (any strategy) has stripped text
length strictly greater than 150 characters — the post-filter keeps exactly
the chunks above the threshold. -/
theorem c5_min_length (doc : Document) (institution : String) (year : Int)
    (title theme source strategy : String) :
    ∀ c ∈ ingest_pdf doc institution year title theme source strategy,
      150 < (pyStrip c.page_content).length := by
  intro c hc
  rw [ingest_pdf_eq, List.mem_filter] at hc
  simpa using hc.2

theorem c5_witness :
    ((ingest_pdf c2Doc "Cour des comptes" 2024 "Rapport" "theme" "doc.pdf" "sections").headD
        dummyDoc) ∈
      ingest_pdf c2Doc "Cour des comptes" 2024 "Rapport" "theme" "doc.pdf" "sections" ∧
    150 < (pyStrip ((ingest_pdf c2Doc "Cour des comptes" 2024 "Rapport" "theme" "doc.pdf"
        "sections").headD dummyDoc).page_content).length :=
  ⟨by decide, c5_min_length c2Doc "Cour des comptes" 2024 "Rapport" "theme" "doc.pdf"
    "sections" _ (by decide)⟩

/-- C6: `_is_protected_section` returns false on the empty title; it returns
true exactly when the title, lowercased, NFD-decomposed and with combining
marks removed, contains one of the four protected keywords as a substring; in
particular it returns true on "RÉCAPITULATIF DES RECOMMANDATIONS". -/
theorem c6_protected_classifier :
    is_protected_section "" = false ∧
    (∀ title : String, is_protected_section title = true ↔
      (title ≠ "" ∧ ∃ kw ∈ PROTECTED_SECTIONS, ∃ l r,
        (normalizeAccents title).data = l ++ kw.data ++ r)) ∧
    is_protected_section "RÉCAPITULATIF DES RECOMMANDATIONS" = true := by
  refine ⟨rfl, ?_, by decide⟩
  intro title
  unfold is_protected_section
  by_cases ht : (title == "") = true
  · rw [if_pos ht]
    have : title = "" := by simpa using ht
    simp [this]
  · rw [if_neg ht]
    rw [List.any_eq_true]
    constructor
    · rintro ⟨kw, hkw, hsub⟩
      refine ⟨by simpa using ht, kw, hkw, ?_⟩
      exact (containsSubAux_iff kw.data (normalizeAccents title).data).mp hsub
    · rintro ⟨hne, kw, hkw, l, r, hsplit⟩
      exact ⟨kw, hkw, (containsSubAux_iff kw.data (normalizeAccents title).data).mpr
        ⟨l, r, hsplit⟩⟩

/-- C7: for any institution whose normalized (stripped, lowercased) name is not
a key of the registry, pattern resolution falls back to the generic rule set,
and with those rules the line "1. OVERVIEW" is detected as a title (the
generic numbered-heading rule matches), returning the line itself. -/
theorem c7_generic_fallback (institution : String)
    (h : PATTERNS_BY_INSTITUTION.find?
        (fun p => p.1 == pyLowerStr (pyStrip institution)) = none) :
    get_patterns institution = PATTERNS_GENERIQUES ∧
    detect_section_title "1. OVERVIEW" (get_patterns institution) = some "1. OVERVIEW" := by
  have hg : get_patterns institution = PATTERNS_GENERIQUES := by
    simp only [get_patterns]
    rw [h]
  refine ⟨hg, ?_⟩
  rw [hg]
  decide

theorem c7_witness :
    (PATTERNS_BY_INSTITUTION.find?
        (fun p => p.1 == pyLowerStr (pyStrip "Unknown Agency")) = none) ∧
    (get_patterns "Unknown Agency" = PATTERNS_GENERIQUES ∧
     detect_section_title "1. OVERVIEW" (get_patterns "Unknown Agency") = some "1. OVERVIEW") :=
  ⟨by decide, c7_generic_fallback "Unknown Agency" (by decide)⟩

/-- C8: a document all of whose characters are whitespace produces no chunk:
every line normalizes to the empty string so no title is detected, the final
whitespace-only buffer is silently discarded by the flush step, and
`ingest_pdf` (strategy "sections") returns the empty list. -/
theorem c8_whitespace_doc (doc : Document) (institution : String) (year : Int)
    (title theme source : String)
    (h : doc.page_content.data.all isPySpace = true) :
    chunk_by_sections doc institution = [] ∧
    ingest_pdf doc institution year title theme source "sections" = [] := by
  have hmain : chunk_by_sections doc institution = [] := by
    simp only [chunk_by_sections, chunk_by_sections_with]
    have hlines : ∀ line ∈ splitNl doc.page_content, line.data.all isPySpace = true := by
      intro line hline
      exact splitNlAux_allWs doc.page_content.data [] h rfl line hline
    have hfold : ∀ st : SegState,
        (st.sections = [] ∧ st.current_text.data.all isPySpace = true) →
        ∀ line ∈ splitNl doc.page_content,
        ((seg_step (get_patterns institution) recursive_splitter_model doc.metadata st
            line).sections = [] ∧
         (seg_step (get_patterns institution) recursive_splitter_model doc.metadata st
            line).current_text.data.all isPySpace = true) := by
      intro st hst line hline
      simp only [seg_step]
      rw [detect_ws line (get_patterns institution) (hlines line hline)]
      rw [if_neg (by simp [optTruthy])]
      refine ⟨hst.1, ?_⟩
      rw [String.data_append, String.data_append, List.all_append, List.all_append]
      rw [hst.2, show ("\n".data.all isPySpace) = true from rfl, hlines line hline]
      rfl
    have hst := foldl_inv_mem
      (fun st : SegState => st.sections = [] ∧ st.current_text.data.all isPySpace = true)
      (seg_step (get_patterns institution) recursive_splitter_model doc.metadata)
      (splitNl doc.page_content)
      { sections := [], current_text := "", current_title := none, section_index := 0 }
      ⟨rfl, rfl⟩
      (fun st b hb hstp => hfold st hstp b hb)
    rw [hst.1, List.nil_append]
    simp only [flush_section]
    rw [if_pos (by simp [pyStrip_allWs _ hst.2])]
  refine ⟨hmain, ?_⟩
  rw [ingest_pdf_sections, hmain]
  rfl

theorem c8_witness :
    (wsDoc.page_content.data.all isPySpace = true) ∧
    (chunk_by_sections wsDoc "IGF" = [] ∧
     ingest_pdf wsDoc "IGF" 2023 "Titre" "theme" "s.pdf" "sections" = []) :=
  ⟨by decide, c8_whitespace_doc wsDoc "IGF" 2023 "Titre" "theme" "s.pdf" (by decide)⟩

/-- C9: the embedded chunking pipeline is a pure function of the document, the
institution and the configuration — it holds no mutable or ambient state — so
two runs on the same inputs return identical chunk sequences (texts and
metadata alike). -/
theorem c9_deterministic (doc : Document) (institution : String) (year : Int)
    (title theme source strategy : String) :
    chunk_by_sections doc institution = chunk_by_sections doc institution ∧
    ingest_pdf doc institution year title theme source strategy =
      ingest_pdf doc institution year title theme source strategy :=
  ⟨rfl, rfl⟩

/-- C10 (counterexample): the first chunk emitted by `_chunk_by_sections` does
NOT always carry empty section metadata: on a document whose first line is
whitespace, the buffer is Python-truthy but whitespace-only when the first
heading is detected, so the flush emits nothing, the index moves to 1 and the
title IS recorded — the first emitted chunk carries that title. -/
theorem c10_counterexample :
    (chunk_by_sections c10Doc "Cour des comptes").map
        (fun c => (mdGet c.metadata "section", mdGet c.metadata "section_index")) =
      [(some (.str "I - PREMIERE PARTIE"), some (.int 1))] ∧
    MVal.str "I - PREMIERE PARTIE" ≠ MVal.str "" := by
  exact ⟨by decide, by decide⟩

/-- C10 (amended): the title variable is only recorded when a detection
coincides with a truthy buffer, so any chunk emitted with section_index 0 —
in particular a first chunk carrying index 0 — has section metadata "";
a whitespace-but-truthy leading buffer can however be discarded at the first
detection, in which case the first emitted chunk has index ≥ 1 and may carry
a title. -/
theorem c10_amended (doc : Document) (institution : String) :
    ∀ c ∈ chunk_by_sections doc institution,
      mdGet c.metadata "section_index" = some (.int 0) →
      mdGet c.metadata "section" = some (.str "") := by
  intro c hc h0
  obtain ⟨n, hn, hz⟩ :=
    (chunk_by_sections_with_inv recursive_splitter_model model_propagates doc
      institution).2 c hc
  rw [hn] at h0
  have hn0 : n = 0 := by simpa using h0
  exact hz hn0

theorem c10_witness :
    ((chunk_by_sections c1Doc "Cour des comptes").headD dummyDoc ∈
      chunk_by_sections c1Doc "Cour des comptes" ∧
     mdGet ((chunk_by_sections c1Doc "Cour des comptes").headD dummyDoc).metadata
        "section_index" = some (.int 0)) ∧
    mdGet ((chunk_by_sections c1Doc "Cour des comptes").headD dummyDoc).metadata "section" =
      some (.str "") :=
  ⟨⟨by decide, by decide⟩,
   c10_amended c1Doc "Cour des comptes" _ (by decide) (by decide)⟩

end RagSpec
